import Mathlib

/-!
# Mod Compatibility & Merge Engine — verification development

A shallow embedding of the mod-merge core of the `babamodmanager`
repository: the function extractor (`src/mods/mod.rs`, `src/mods/luafunction.rs`,
`src/mods/luafuncdef.rs`), the script model (`src/files/luafile.rs`), the mod
descriptor and compatibility check (`src/mods/babamod.rs`), and the merge
engine (`src/merge.rs`).

Strings are modelled as `List Char`, and the Rust `str` primitives used by the
source (`split`, `replace`, `contains`, `lines`, `starts_with`) are implemented
below with matching semantics. Recursions whose measure is the string length
use an explicit fuel argument set to `length + 1`, which strictly exceeds the
number of steps either loop can take (every step consumes at least one
character of the remaining suffix), so the fuel-exhausted fallback is
unreachable; fuel keeps every definition structurally recursive and hence
evaluable by `decide` in the kernel.

The `diff-match-patch` crate is an external dependency: its diff, patch-make
and patch-apply operations are taken as parameters (the `Dmp` structure), so
every theorem about the merge engine holds for all behaviours of that library.
The authoritative built-in function corpus (`src/data/babafuncs.txt`, loaded
with `include_str!`) is likewise external input; following the specification
it is "a fixed, externally supplied set of built-in function names", modelled
as an explicit parameter `bn : List Str`.
-/

namespace BabaMM

/-- Rust `String` / `&str`, modelled as its character list. -/
abbrev Str := List Char

/-- `String.toList` shorthand for writing `Str` literals. -/
def strL (s : String) : Str := s.toList

/-- `pat.hasPrefixL s`? Models Rust `s.starts_with(pat)` (pattern first). -/
def hasPrefixL : Str → Str → Bool
  | [], _ => true
  | _ :: _, [] => false
  | c :: p, d :: s => c = d && hasPrefixL p s

/-- First occurrence of `pat` in `s`: returns the text before the match and
the text after it.  Models the search underlying Rust `str::find`,
`str::split`, `str::replace` and `str::contains`. -/
def splitFirst (pat : Str) : Str → Option (Str × Str)
  | [] => if hasPrefixL pat [] then some ([], []) else none
  | c :: rest =>
    if hasPrefixL pat (c :: rest) then some ([], List.drop pat.length (c :: rest))
    else
      match splitFirst pat rest with
      | some (pre, post) => some (c :: pre, post)
      | none => none

/-- Rust `s.contains(pat)`. -/
def containsL (pat s : Str) : Bool := (splitFirst pat s).isSome

/-- Rust `s.split(pat)` (fuelled; `fuel > s.length` always suffices because
each step drops at least one character of the remaining suffix). -/
def splitOnFuel : Nat → Str → Str → List Str
  | 0, _, s => [s]
  | fuel + 1, pat, s =>
    match splitFirst pat s with
    | none => [s]
    | some (pre, post) => pre :: splitOnFuel fuel pat post

/-- Rust `s.split(pat)`.  The source never splits on an empty pattern. -/
def splitOnL (pat s : Str) : List Str := splitOnFuel (s.length + 1) pat s

/-- Rust `s.replace(pat, to)` (fuelled, same measure as `splitOnL`).  The
source never replaces an empty pattern. -/
def replaceFuel : Nat → Str → Str → Str → Str
  | 0, _, _, s => s
  | fuel + 1, pat, t, s =>
    match splitFirst pat s with
    | none => s
    | some (pre, post) => pre ++ t ++ replaceFuel fuel pat t post

/-- Rust `s.replace(pat, t)`. -/
def replaceL (pat t s : Str) : Str := replaceFuel (s.length + 1) pat t s

/-- Strip one trailing carriage return (the `\r` of a `\r\n` line ending). -/
def stripCr (l : Str) : Str :=
  match l.getLast? with
  | some c => if c = '\r' then l.dropLast else l
  | none => l

/-- Rust `s.lines()`: pieces before each `'\n'` (with a `\r\n` ending also
consumed), plus the final piece when it is non-empty. -/
def linesL (s : Str) : List Str :=
  let ps := splitOnL ['\n'] s
  match ps.getLast? with
  | some last => ps.dropLast.map stripCr ++ (if last = [] then [] else [last])
  | none => []

/-! ## Error taxonomy (`src/error.rs`, `src/error/moddingerror.rs`)

External error payloads (filesystem, JSON, the diff library's own error) carry
no structure the merge engine inspects; they are modelled as opaque tags. -/

/-- `ModdingError` from `src/error/moddingerror.rs`. -/
inductive ModdingError where
  | NotAConfigFile (path : Str)
  | NotALuaFunction (s : Str)
  | RenameError
  | NotABabaFunction
  | CodeRemoval
  | IncompletePatching
deriving DecidableEq

/-- The error type of the external `diff_match_patch_rs` crate; its contents
are never inspected by the merge engine. -/
structure DmpErr where
  tag : Nat
deriving DecidableEq

/-- `BabaError` from `src/error.rs` (the variants are named as in the snapshot
that `src/merge.rs` matches on).  Payloads of external collaborators are
tags. -/
inductive BabaError where
  | LevelpackError (tag : Nat)
  | IOError (tag : Nat)
  | ModdingError (e : ModdingError)
  | SerdeJsonError (tag : Nat)
  | DmpError (e : DmpErr)
deriving DecidableEq

/-! ## Function definitions and bodies
(`src/mods/luafuncdef.rs`, `src/mods/luafunction.rs`, `src/mods/mod.rs`)

`baba_function_names()` reads `src/data/babafuncs.txt` via `include_str!`;
that data file is external input absent from the sources.  Modelled from the
spec: "`is_native` is computed by membership test against a fixed, externally
supplied set of built-in function names", so every definition below takes the
set as a parameter `bn : List Str`. -/

/-- `LuaFuncDef` from `src/mods/luafuncdef.rs`. -/
structure LuaFuncDef where
  name : Str
  is_baba_native : Bool
deriving DecidableEq

/-- `LuaFuncDef::from_str` (`src/mods/luafuncdef.rs` lines 25–47): the line
must start with `function`; the name is the second space-separated token cut
at the first `(`; nativeness is membership in the built-in name set `bn`. -/
def LuaFuncDef.fromStr (bn : List Str) (line : Str) : Except ModdingError LuaFuncDef :=
  if hasPrefixL (strL "function") line = false then
    .error (.NotALuaFunction line)
  else
    match (splitOnL [' '] line).get? 1 with
    | none => .error (.NotALuaFunction line)
    | some tok =>
      match (splitOnL ['('] tok).head? with
      | none => .error (.NotALuaFunction line)
      | some name => .ok ⟨name, decide (name ∈ bn)⟩

/-- `LuaFunction` from `src/mods/luafunction.rs`. -/
structure LuaFunction where
  definition : LuaFuncDef
  code : Str
deriving DecidableEq

/-- The assignment-style normalisation inside `LuaFunction::from_str`
(`src/mods/luafunction.rs` lines 47–79), applied to a line containing both
`=` and `function`: first token (skipping a leading `local`) is the name, one
further token (the `=`) is discarded, the rest is joined without separators
and split at its first `(`; yields `function <name>(<args>`.  `none` models
the `continue` paths that drop the line entirely. -/
def normalizeAssignLine (line : Str) : Option Str :=
  let toks := splitOnL [' '] line
  match toks.head? with
  | none => none
  | some first =>
    let (nameOpt, k) :=
      if first = strL "local" then (toks.get? 1, 2) else (some first, 1)
    match nameOpt with
    | none => none
    | some name =>
      -- `iter.next()` in the source discards what is expected to be the `=`
      let rest := (toks.drop (k + 1)).foldl (fun init next => init ++ next) []
      match splitFirst ['('] rest with
      | none => none
      | some (_, args) => some (strL "function " ++ name ++ ['('] ++ args)

/-- `LuaFunction::from_str` (`src/mods/luafunction.rs` lines 35–89): parse the
whole text as a `LuaFuncDef`, then rebuild the code line by line, rewriting
assignment-style declarations; the rebuilt code concatenates the processed
lines without re-inserting the line breaks that `lines()` stripped. -/
def LuaFunction.fromStr (bn : List Str) (code : Str) : Except ModdingError LuaFunction :=
  match LuaFuncDef.fromStr bn code with
  | .error e => .error e
  | .ok function =>
    let newCode := (linesL code).foldl
      (fun acc line =>
        if containsL ['='] line && containsL (strL "function") line then
          match normalizeAssignLine line with
          | none => acc
          | some r => acc ++ r
        else acc ++ line)
      []
    .ok ⟨function, newCode⟩

/-- `concat_strings` from `src/mods/mod.rs` lines 65–69: concatenation with a
line break inserted between the parts. -/
def concat_strings (left right : Str) : Str := left ++ '\n' :: right

/-- `code_to_funcs` from `src/mods/mod.rs` lines 41–61: split at every
`function`, keep each piece up to its first `\nend`, re-attach `function` at
the front and `\nend` at the back (both via `concat_strings`, which inserts a
line break), and keep the pieces that parse as `LuaFunction`s. -/
def code_to_funcs (bn : List Str) (file : Str) : List LuaFunction :=
  (((((splitOnL (strL "function") file).map
      (fun x => (splitOnL (strL "\nend") x).head?)).map
      (fun o => o.getD [])).map
      (fun s => concat_strings (strL "function") s)).map
      (fun s => concat_strings s (strL "\nend"))).filterMap
      (fun s => (LuaFunction.fromStr bn s).toOption)

/-- Hash-set insertion, modelled on lists as append-if-new (first-seen
order). -/
def insertSet {α : Type} [DecidableEq α] (x : α) (xs : List α) : List α :=
  if x ∈ xs then xs else xs ++ [x]

/-- `functions_from_string` from `src/mods/mod.rs` lines 20–29: the set of
definitions of lines that parse as `LuaFuncDef`s. -/
def functions_from_string (bn : List Str) (s : Str) : List LuaFuncDef :=
  (linesL s).foldl
    (fun acc line =>
      match LuaFuncDef.fromStr bn line with
      | .error _ => acc
      | .ok d => insertSet d acc)
    []

/-! ## Script model (`src/files/luafile.rs`)

`renamed_functions` is a `HashMap<String, String>`; it is modelled as an
association list with insert-replaces-value semantics.  The source's nested
loop iterates the built-in name set per line; distinct iterations insert under
distinct keys, so the fixed list order used here is observationally equal to
any hash-set iteration order. -/

/-- `HashMap::insert`: replace the value under an existing key, else append. -/
def mapInsert (k v : Str) : List (Str × Str) → List (Str × Str)
  | [] => [(k, v)]
  | (k', v') :: rest => if k' = k then (k, v) :: rest else (k', v') :: mapInsert k v rest

/-- `HashMap::get`. -/
def mapGet? (k : Str) : List (Str × Str) → Option Str
  | [] => none
  | (k', v) :: rest => if k' = k then some v else mapGet? k rest

/-- `LuaFile` from `src/files/luafile.rs`. -/
structure LuaFile where
  functions : List LuaFunction
  renamed_functions : List (Str × Str)
  code : Str
deriving DecidableEq

/-- The alias a matching line records (`src/files/luafile.rs` lines 110–114):
drop every `local`, take the text before the first `=` (the whole line when
there is none), and remove all spaces. -/
def recordedAlias (line : Str) : Str :=
  let line' := replaceL (strL "local") [] line
  let rename := (splitOnL ['='] line').head?.getD (strL "RENAME_NOT_FOUND")
  replaceL [' '] [] rename

/-- The guard of the rename-detection loop (`src/files/luafile.rs` line 109):
the line contains `name` but not the word `function`. -/
def matchesB (name line : Str) : Bool :=
  containsL name line && !containsL (strL "function") line

/-- One step of the rename-detection loop (`src/files/luafile.rs` lines
107–117): a line containing the built-in name `name` but not the word
`function` records `name ↦ recordedAlias line`. -/
def renameStep (line : Str) (m : List (Str × Str)) (name : Str) : List (Str × Str) :=
  if matchesB name line then mapInsert name (recordedAlias line) m else m

/-- `<LuaFile as FromStr>::from_str` (`src/files/luafile.rs` lines 98–124).
Its error type is `Infallible`, an uninhabited type, modelled by `Empty`. -/
def LuaFile.fromStrE (bn : List Str) (s : Str) : Except Empty LuaFile :=
  .ok
    { functions := code_to_funcs bn s
      renamed_functions := (linesL s).foldl (fun m line => bn.foldl (renameStep line) m) []
      code := s }

/-- `From<String> for LuaFile` (`src/files/luafile.rs` lines 126–130): parse
and unwrap.  The `Empty.elim` branch shows the unwrap can never panic. -/
def LuaFile.fromString (bn : List Str) (s : Str) : LuaFile :=
  match LuaFile.fromStrE bn s with
  | .ok f => f
  | .error e => e.elim

/-- `LuaFile::definitions` (`src/files/luafile.rs` lines 47–52): the set of
the functions' definitions. -/
def LuaFile.definitions (f : LuaFile) : List LuaFuncDef :=
  f.functions.foldl (fun acc fn => insertSet fn.definition acc) []

/-- `LuaFile::function_uses_injection_str` (`src/files/luafile.rs` lines
85–88): the name occurs among the keys or among the values of
`renamed_functions`. -/
def LuaFile.function_uses_injection_str (f : LuaFile) (func_name : Str) : Bool :=
  f.renamed_functions.any (fun p => decide (p.1 = func_name))
    || f.renamed_functions.any (fun p => decide (p.2 = func_name))

/-- `LuaFile::function_uses_injection` (`src/files/luafile.rs` lines 78–80). -/
def LuaFile.function_uses_injection (f : LuaFile) (d : LuaFuncDef) : Bool :=
  f.function_uses_injection_str d.name

/-- `LuaFile::injection_data` (`src/files/luafile.rs` lines 93–95). -/
def LuaFile.injection_data (f : LuaFile) (d : LuaFuncDef) : Option Str :=
  mapGet? d.name f.renamed_functions

/-! ## Mod descriptor (`src/mods/babamod.rs`)

The descriptor's derived sets are read from the filesystem on demand.  The
filesystem snapshot a `BabaMod` sees is modelled by three fields: the contents
of each of its relevant `.lua` files (`none` for an unreadable file, skipped
by `defined_function_definitions`), the manifest's sprite list (`none` when
the mod has no config), and the file names found in the sprites folder
(`none` when the directory read fails, which `is_compatible_with` turns into
the empty set via `unwrap_or_default`). -/

/-- `BabaMod` (`src/mods/babamod.rs`), restricted to the state its
compatibility check reads. -/
structure BabaMod where
  lua_file_contents : List (Option Str)
  config_sprites : Option (List Str)
  sprites_folder_files : Option (List Str)

/-- `BabaMod::defined_function_definitions` (`src/mods/babamod.rs` lines
156–171): union of `functions_from_string` over the readable lua files. -/
def BabaMod.defined_function_definitions (bn : List Str) (m : BabaMod) : List LuaFuncDef :=
  m.lua_file_contents.foldl
    (fun acc c =>
      match c with
      | none => acc
      | some contents => (functions_from_string bn contents).foldl (fun a d => insertSet d a) acc)
    []

/-- `BabaMod::defined_sprites` (`src/mods/babamod.rs` lines 192–198): the
manifest's sprite list, or the empty set without a config. -/
def BabaMod.defined_sprites (m : BabaMod) : List Str :=
  m.config_sprites.getD []

/-- `BabaMod::sprites_by_name` (`src/mods/babamod.rs` lines 204–211): the file
names in the sprites folder; errs when the directory cannot be read. -/
def BabaMod.sprites_by_name (m : BabaMod) : Option (List Str) :=
  m.sprites_folder_files

/-- `HashSet::is_disjoint`. -/
def isDisjointL {α : Type} [DecidableEq α] (xs ys : List α) : Bool :=
  xs.all (fun x => !(decide (x ∈ ys)))

/-- `BabaMod::is_compatible_with` (`src/mods/babamod.rs` lines 215–222):
disjoint defined-function sets and disjoint sprites-folder name sets (an
unreadable folder counting as empty). -/
def BabaMod.is_compatible_with (bn : List Str) (a b : BabaMod) : Bool :=
  isDisjointL (a.defined_function_definitions bn) (b.defined_function_definitions bn)
    && isDisjointL (a.sprites_by_name.getD []) (b.sprites_by_name.getD [])

/-- Decidable equality of `Except` values, for evaluating merge results on
concrete inputs. -/
instance {ε α : Type} [DecidableEq ε] [DecidableEq α] : DecidableEq (Except ε α) := fun x y =>
  match x, y with
  | .ok a, .ok b => decidable_of_iff (a = b) (by simp)
  | .error a, .error b => decidable_of_iff (a = b) (by simp)
  | .ok _, .error _ => isFalse (fun h => by cases h)
  | .error _, .ok _ => isFalse (fun h => by cases h)

/-! ## The external diff library (`diff_match_patch_rs`)

`src/merge.rs` drives the crate through three calls: `diff_main`,
`patch_make(PatchInput::new_text_diffs(..))` and `patch_apply`.  Diffs expose
an operation and a text; patches are never inspected, so their type is a
parameter.  All merge theorems below are quantified over every behaviour of
these operations. -/

/-- `diff_match_patch_rs::Ops`. -/
inductive Ops where
  | Delete
  | Insert
  | Equal
deriving DecidableEq

/-- A `diff_match_patch_rs` diff: an operation together with its text. -/
structure Diff where
  op : Ops
  text : Str
deriving DecidableEq

/-- The three library operations `src/merge.rs` calls, as black boxes. -/
structure Dmp (P : Type) where
  diff_main : Str → Str → Except DmpErr (List Diff)
  patch_make : Str → List Diff → Except DmpErr (List P)
  patch_apply : List P → Str → Except DmpErr (Str × List Bool)

/-! ## Merge engine (`src/merge.rs`) -/

/-- `LEFT_HAND_SUFFIX` (`src/merge.rs` line 12). -/
def LEFT_HAND_SUFFIX : Str := strL "_left"

/-- `RIGHT_HAND_SUFFIX` (`src/merge.rs` line 16). -/
def RIGHT_HAND_SUFFIX : Str := strL "_right"

/-- `merge_functions_via_dmp` (`src/merge.rs` lines 245–270): diff left code
against right code, drop the delete operations, build patches from the rest
anchored at the left code, apply them to the left code; any failed patch
application aborts with `IncompletePatching`, otherwise the patched text is
re-parsed as a `LuaFunction`. -/
def merge_functions_via_dmp {P : Type} (bn : List Str) (dmp : Dmp P)
    (left right : LuaFunction) : Except BabaError LuaFunction :=
  match dmp.diff_main left.code right.code with
  | .error e => .error (.DmpError e)
  | .ok diffs =>
    let diffs := diffs.filter (fun d => decide (d.op ≠ Ops.Delete))
    match dmp.patch_make left.code diffs with
    | .error e => .error (.DmpError e)
    | .ok patches =>
      match dmp.patch_apply patches left.code with
      | .error e => .error (.DmpError e)
      | .ok (result, flags) =>
        if flags.any (fun flag => !flag) then
          .error (.ModdingError .IncompletePatching)
        else
          match LuaFunction.fromStr bn result with
          | .error e => .error (.ModdingError e)
          | .ok f => .ok f

/-- `merge_override_functions` (`src/merge.rs` lines 191–218): look the
original up in the built-in corpus (else `NotABabaFunction`), diff it against
both candidates, abort with `CodeRemoval` on any delete operation, else fall
through to the generic diff/patch merge. -/
def merge_override_functions {P : Type} (bn : List Str) (dmp : Dmp P)
    (left right : LuaFunction) (baba_funcs : List LuaFunction) : Except BabaError LuaFunction :=
  match baba_funcs.find? (fun func => decide (func.definition = left.definition)) with
  | none => .error (.ModdingError .NotABabaFunction)
  | some original =>
    match dmp.diff_main original.code left.code with
    | .error e => .error (.DmpError e)
    | .ok diffs_left =>
      match dmp.diff_main original.code right.code with
      | .error e => .error (.DmpError e)
      | .ok diffs_right =>
        if (diffs_left ++ diffs_right).any (fun d => decide (d.op = Ops.Delete)) then
          .error (.ModdingError .CodeRemoval)
        else
          merge_functions_via_dmp bn dmp left right

/-- `merge_injected_functions` (`src/merge.rs` lines 233–241). -/
def merge_injected_functions {P : Type} (bn : List Str) (dmp : Dmp P)
    (left right : LuaFunction) : Except BabaError LuaFunction :=
  merge_functions_via_dmp bn dmp left right

/-- `LuaFunction::from_definition_and_code` (`src/mods/luafunction.rs` lines
21–26): extract the functions of `code` and find the one with the given
definition. -/
def from_definition_and_code (bn : List Str) (definition : LuaFuncDef) (code : Str) :
    Option LuaFunction :=
  (code_to_funcs bn code).find? (fun func => decide (func.definition = definition))

/-- The three strings the `merge_files` loop threads through its iterations:
the left file's remaining code, the right file's remaining code, and the
accumulated merged section. -/
structure MergeSt where
  left : Str
  right : Str
  merged : Str
deriving DecidableEq

/-- The body of the `merge_files` collision loop (`src/merge.rs` lines
97–163), for one colliding definition `func`.  A non-native name renames both
sides with the deterministic suffixes; a native name has its code cut out of
both sides and dispatches on which of the two files use the injection method:
exactly one (the mixed case, lines 126–154) emits the non-injected code, a
`local <alias> = <name>` line and the injected code, failing with
`RenameError` when no alias was recorded; none or both delegate to the
override / injected merges. -/
def merge_collision_step {P : Type} (bn : List Str) (dmp : Dmp P)
    (left_file right_file : LuaFile) (baba_funcs : List LuaFunction)
    (st : MergeSt) (func : LuaFuncDef) : Except BabaError MergeSt :=
  if func.is_baba_native = false then
    let name := func.name
    .ok { st with
      left := replaceL name (name ++ LEFT_HAND_SUFFIX) st.left
      right := replaceL name (name ++ RIGHT_HAND_SUFFIX) st.right }
  else
    match from_definition_and_code bn func st.left, from_definition_and_code bn func st.right with
    | some left_func, some right_func =>
      let left2 := replaceL left_func.code [] st.left
      let right2 := replaceL right_func.code [] st.right
      match left_file.function_uses_injection left_func.definition,
            right_file.function_uses_injection right_func.definition with
      | true, false =>
        match left_file.injection_data func with
        | none => .error (.ModdingError .RenameError)
        | some rename =>
          .ok ⟨left2, right2,
            st.merged ++ right_func.code
              ++ '\n' :: (strL "local " ++ rename ++ strL " = " ++ func.name)
              ++ '\n' :: left_func.code⟩
      | false, true =>
        match right_file.injection_data func with
        | none => .error (.ModdingError .RenameError)
        | some rename =>
          .ok ⟨left2, right2,
            st.merged ++ left_func.code
              ++ '\n' :: (strL "local " ++ rename ++ strL " = " ++ func.name)
              ++ '\n' :: right_func.code⟩
      | false, false =>
        match merge_override_functions bn dmp left_func right_func baba_funcs with
        | .error e => .error e
        | .ok new_func => .ok ⟨left2, right2, st.merged ++ '\n' :: new_func.code ++ ['\n']⟩
      | true, true =>
        match merge_injected_functions bn dmp left_func right_func with
        | .error e => .error e
        | .ok new_func => .ok ⟨left2, right2, st.merged ++ '\n' :: new_func.code ++ ['\n']⟩
    | _, _ => .ok st

/-- The `merge_files` loop over all colliding definitions. -/
def foldCollisions {P : Type} (bn : List Str) (dmp : Dmp P)
    (left_file right_file : LuaFile) (baba_funcs : List LuaFunction) :
    List LuaFuncDef → MergeSt → Except BabaError MergeSt
  | [], st => .ok st
  | d :: rest, st =>
    match merge_collision_step bn dmp left_file right_file baba_funcs st d with
    | .error e => .error e
    | .ok st' => foldCollisions bn dmp left_file right_file baba_funcs rest st'

/-- The final clean-up of `merge_files` (`src/merge.rs` lines 171–173): while
the text contains a double line break, replace every double line break by a
single one.  Each pass strictly shrinks the text, so `length + 1` rounds of
fuel always suffice. -/
def collapseFuel : Nat → Str → Str
  | 0, s => s
  | fuel + 1, s =>
    if containsL (strL "\n\n") s then collapseFuel fuel (replaceL (strL "\n\n") (strL "\n") s)
    else s

/-- The `while result.contains("\n\n")` loop of `merge_files`. -/
def collapseNewlines (s : Str) : Str := collapseFuel (s.length + 1) s

/-- `merge_files` (`src/merge.rs` lines 80–175).  The Rust `HashSet`
intersection iterates in an unspecified order; the embedding enumerates the
left file's definition set in first-seen order, filtered by membership in the
right file's set — a deterministic refinement of that behaviour. -/
def merge_files {P : Type} (bn : List Str) (dmp : Dmp P)
    (left_file right_file : LuaFile) (baba_funcs : List LuaFunction) :
    Except BabaError LuaFile :=
  let lhs := left_file.definitions
  let rhs := right_file.definitions
  let intersections := lhs.filter (fun d => decide (d ∈ rhs))
  match foldCollisions bn dmp left_file right_file baba_funcs intersections
      ⟨left_file.code, right_file.code, []⟩ with
  | .error e => .error e
  | .ok st =>
    let result := concat_strings st.left (concat_strings st.merged st.right)
    .ok (LuaFile.fromString bn (collapseNewlines result))

/-! ## The specification's reading of the generic diff/patch merge (§4.4.3)

A second definition of the generic merge, written from the specification's
sentence rather than from the source, to be proved equal to
`merge_functions_via_dmp`. -/

/-- §4.4.3 verbatim: diff left against right, build a patch set from the
remaining insert/equal operations anchored at the left code, apply it to the
left code, fail with `IncompletePatching` if any individual patch application
reports failure, and on success re-parse the text into a function body. -/
def mergeViaDmpSpec {P : Type} (bn : List Str) (dmp : Dmp P)
    (left right : LuaFunction) : Except BabaError LuaFunction :=
  match dmp.diff_main left.code right.code with
  | .error e => .error (.DmpError e)
  | .ok diffs =>
    let kept := diffs.filter (fun d => decide (d.op = Ops.Insert ∨ d.op = Ops.Equal))
    match dmp.patch_make left.code kept with
    | .error e => .error (.DmpError e)
    | .ok patches =>
      match dmp.patch_apply patches left.code with
      | .error e => .error (.DmpError e)
      | .ok (result, flags) =>
        if flags.all (fun flag => flag = true) then
          match LuaFunction.fromStr bn result with
          | .error e => .error (.ModdingError e)
          | .ok f => .ok f
        else .error (.ModdingError .IncompletePatching)

/-- Modelled from the spec: "re-serializing the extracted bodies in their
original order into one script" (§8, round-trip property).  No function of
the repository performs this step, so the bodies are laid out as consecutive
lines, the layout `code_to_funcs` expects back. -/
def serializeBodies (fs : List LuaFunction) : Str :=
  List.intercalate ['\n'] (fs.map (fun f => f.code))

/-! ## Concrete fixtures used by witnesses and counterexamples -/

/-- A behaviour of the external diff library that reports no differences and
applies patches as the identity. -/
def fxDmp : Dmp Unit :=
  ⟨fun _ _ => .ok [], fun _ _ => .ok [], fun _ s => .ok (s, [])⟩

/-- A behaviour of the external diff library whose diffs always contain a
delete operation. -/
def fxDmpDel : Dmp Unit :=
  ⟨fun _ _ => .ok [⟨Ops.Delete, strL "x"⟩], fun _ _ => .ok [], fun _ s => .ok (s, [])⟩

/-- Built-in corpus entry for the override-merge witness. -/
def fxOrig : LuaFunction := ⟨⟨strL "init", true⟩, strL "function init(a)olddo()end"⟩

/-- Left override candidate for the override-merge witness. -/
def fxLeftFn : LuaFunction := ⟨⟨strL "init", true⟩, strL "function init(a)olddo()leftdo()end"⟩

/-- Right override candidate for the override-merge witness. -/
def fxRightFn : LuaFunction := ⟨⟨strL "init", true⟩, strL "function init(a)olddo()rightdo()end"⟩

/-- Built-in name set for the mixed-merge witness. -/
def fxBn2 : List Str := [strL "update"]

/-- Left (injecting) script of the mixed-merge witness. -/
def fxLf2 : LuaFile :=
  LuaFile.fromString fxBn2 (strL "local oldupdate = update\nfunction update(a)\nfoo()\nend")

/-- Right (overriding) script of the mixed-merge witness. -/
def fxRf2 : LuaFile := LuaFile.fromString fxBn2 (strL "function update(a)\nbar()\nend")

/-- The colliding native definition of the mixed-merge witness. -/
def fxD2 : LuaFuncDef := ⟨strL "update", true⟩

/-- Mod descriptor with one lua file, manifest sprite `spr`, folder file
`a.png`. -/
def fxM1 : BabaMod := ⟨[some (strL "function f(a)\nend")], some [strL "spr"], some [strL "a.png"]⟩

/-- Mod descriptor colliding with `fxM1` on the manifest sprite list but on
nothing the code actually compares. -/
def fxM2 : BabaMod := ⟨[some (strL "function g(a)\nend")], some [strL "spr"], some [strL "b.png"]⟩

/-- Left script of the disjoint-merge fixtures. -/
def fxSrc6l : Str := strL "function abc(a)\nfoo()\nend"

/-- Right script of the disjoint-merge fixtures. -/
def fxSrc6r : Str := strL "function xyz(b)\nbar()\nend"

/-- Left script of the non-native-collision fixtures: defines and calls `t`. -/
def fxSrc7l : Str := strL "function t(a)\nt(b)\nend"

/-- Right script of the non-native-collision fixtures: defines `t`. -/
def fxSrc7r : Str := strL "function t(c)\nend"

/-- The code `merge_files` produces for the non-native collision on `t`: the
global textual rename mangles even the `function` keyword, and `t(` still
occurs (inside `t_left(`). -/
def fxMerged7 : Str := strL "funct_leftion t_left(a)\nt_left(b)\nend\nfunct_rightion t_right(c)\nend"

/-! # Theorems

## Generic facts about the string primitives -/

/-- A successful prefix test decomposes the string. -/
theorem hasPrefixL_eq_append (pat : Str) :
    ∀ s : Str, hasPrefixL pat s = true → s = pat ++ List.drop pat.length s := by
  induction pat with
  | nil => intro s _; simp
  | cons c p ih =>
    intro s h
    cases s with
    | nil => simp [hasPrefixL] at h
    | cons d rest =>
      simp only [hasPrefixL, Bool.and_eq_true, decide_eq_true_eq] at h
      obtain ⟨hc, hp⟩ := h
      simpa [hc.symm] using congrArg (List.cons d) (ih rest hp)

/-- Defining equation of `splitFirst` on the empty string. -/
theorem splitFirst_nil (pat : Str) :
    splitFirst pat [] = if hasPrefixL pat [] = true then some ([], []) else none := rfl

/-- Defining equation of `splitFirst` on a non-empty string. -/
theorem splitFirst_cons (pat : Str) (c : Char) (rest : Str) :
    splitFirst pat (c :: rest)
      = if hasPrefixL pat (c :: rest) = true then some ([], List.drop pat.length (c :: rest))
        else
          match splitFirst pat rest with
          | some (pre, post) => some (c :: pre, post)
          | none => none := rfl

/-- A found first occurrence decomposes the string. -/
theorem splitFirst_eq (pat : Str) :
    ∀ s pre post : Str, splitFirst pat s = some (pre, post) → s = pre ++ pat ++ post := by
  intro s
  induction s with
  | nil =>
    intro pre post h
    rw [splitFirst_nil] at h
    by_cases hp : hasPrefixL pat [] = true
    · cases pat with
      | nil => simp [hp] at h; simp [h.1, h.2]
      | cons c cs => simp [hasPrefixL] at hp
    · simp [hp] at h
  | cons c rest ih =>
    intro pre post h
    rw [splitFirst_cons] at h
    by_cases hp : hasPrefixL pat (c :: rest) = true
    · simp only [hp, if_true, Option.some.injEq, Prod.mk.injEq] at h
      obtain ⟨h1, h2⟩ := h
      rw [← h1, ← h2]
      simpa using hasPrefixL_eq_append pat (c :: rest) hp
    · rw [if_neg hp] at h
      cases hsf : splitFirst pat rest with
      | none => rw [hsf] at h; simp at h
      | some pr =>
        obtain ⟨pre', post'⟩ := pr
        rw [hsf] at h
        simp only [Option.some.injEq, Prod.mk.injEq] at h
        obtain ⟨h1, h2⟩ := h
        rw [← h1, ← h2]
        simpa using ih pre' post' hsf

/-- `contains` unfolds along the first character. -/
theorem containsL_cons (pat : Str) (d : Char) (rest : Str) :
    containsL pat (d :: rest) = (hasPrefixL pat (d :: rest) || containsL pat rest) := by
  unfold containsL
  rw [splitFirst_cons]
  by_cases h : hasPrefixL pat (d :: rest) = true
  · simp [h]
  · rw [if_neg h]
    cases hsf : splitFirst pat rest with
    | none => simp [h, hsf]
    | some pr => obtain ⟨pre, post⟩ := pr; simp [h, hsf]

/-- Containment of a single-character pattern is list membership. -/
theorem containsL_single (c : Char) (s : Str) : containsL [c] s = true ↔ c ∈ s := by
  induction s with
  | nil => simp [containsL, splitFirst, hasPrefixL]
  | cons d rest ih =>
    rw [containsL_cons]
    by_cases h : c = d
    · simp [hasPrefixL, h]
    · simp [hasPrefixL, h, ih]

/-- Replacing a pattern by nothing introduces no characters. -/
theorem mem_replaceFuel_nil (pat : Str) :
    ∀ (fuel : Nat) (s : Str) (c : Char), c ∈ replaceFuel fuel pat [] s → c ∈ s := by
  intro fuel
  induction fuel with
  | zero => intro s c h; exact h
  | succ f ih =>
    intro s c h
    unfold replaceFuel at h
    cases hsf : splitFirst pat s with
    | none => rw [hsf] at h; exact h
    | some pr =>
      obtain ⟨pre, post⟩ := pr
      rw [hsf] at h
      rw [splitFirst_eq pat s pre post hsf]
      simp only [List.append_nil, List.mem_append] at h ⊢
      rcases h with h | h
      · exact Or.inl (Or.inl h)
      · exact Or.inr (ih post c h)

/-- Without an occurrence of the pattern, splitting returns the whole
string. -/
theorem splitOnL_of_not_contains (pat s : Str) (h : containsL pat s = false) :
    splitOnL pat s = [s] := by
  have hsf : splitFirst pat s = none := by
    unfold containsL at h
    cases hsf : splitFirst pat s
    · rfl
    · rw [hsf] at h; simp at h
  unfold splitOnL splitOnFuel
  simp [hsf]

/-- On a line without `=`, the recorded alias is the whole line with every
`local` and every space removed. -/
theorem recordedAlias_no_eq (line : Str) (h : containsL ['='] line = false) :
    recordedAlias line = replaceL [' '] [] (replaceL (strL "local") [] line) := by
  unfold recordedAlias
  have h1 : '=' ∉ line := fun hc => by simp [(containsL_single '=' line).mpr hc] at h
  have h2 : '=' ∉ replaceL (strL "local") [] line :=
    fun hc => h1 (mem_replaceFuel_nil (strL "local") _ _ '=' hc)
  have h3 : containsL ['='] (replaceL (strL "local") [] line) = false := by
    cases hb : containsL ['='] (replaceL (strL "local") [] line)
    · rfl
    · exact absurd ((containsL_single '=' _).mp hb) h2
  show replaceL [' '] []
      ((splitOnL ['='] (replaceL (strL "local") [] line)).head?.getD (strL "RENAME_NOT_FOUND"))
    = _
  rw [splitOnL_of_not_contains _ _ h3]
  rfl

/-! ## Facts about the rename-detection map and its filling loop -/

/-- Lookup after inserting the same key. -/
theorem mapGet?_insert_self (k v : Str) (m : List (Str × Str)) :
    mapGet? k (mapInsert k v m) = some v := by
  induction m with
  | nil => simp [mapInsert, mapGet?]
  | cons p rest ih =>
    obtain ⟨k', v'⟩ := p
    by_cases h : k' = k <;> simp [mapInsert, mapGet?, h, ih]

/-- Lookup after inserting a different key. -/
theorem mapGet?_insert_other (k k' v : Str) (m : List (Str × Str)) (h : k' ≠ k) :
    mapGet? k (mapInsert k' v m) = mapGet? k m := by
  induction m with
  | nil => simp [mapInsert, mapGet?, h]
  | cons p rest ih =>
    obtain ⟨a, b⟩ := p
    have hk : ¬(k = k') := fun hh => h hh.symm
    by_cases ha : a = k'
    · subst ha; simp [mapInsert, mapGet?, h, hk]
    · by_cases hak : a = k <;> simp [mapInsert, mapGet?, ha, hak, ih, hk]

/-- Effect of one rename-detection step on a lookup. -/
theorem renameStep_get (line : Str) (m : List (Str × Str)) (name k : Str) :
    mapGet? k (renameStep line m name)
      = if name = k ∧ matchesB name line = true then some (recordedAlias line)
        else mapGet? k m := by
  unfold renameStep
  by_cases hm : matchesB name line = true
  · by_cases hk : name = k
    · subst hk; simp [hm, mapGet?_insert_self]
    · simp [hm, hk, mapGet?_insert_other _ _ _ _ hk]
  · simp [hm]

/-- Effect of one line's whole pass over the built-in name set on a lookup. -/
theorem innerFold_get (bn : List Str) (line : Str) (m : List (Str × Str)) (k : Str) :
    mapGet? k (bn.foldl (renameStep line) m)
      = if k ∈ bn ∧ matchesB k line = true then some (recordedAlias line)
        else mapGet? k m := by
  induction bn generalizing m with
  | nil => simp
  | cons n rest ih =>
    rw [List.foldl_cons, ih, renameStep_get]
    by_cases hn : n = k
    · subst hn
      by_cases hm : matchesB n line = true
      · by_cases hr : n ∈ rest <;> simp [hm, hr, List.mem_cons]
      · simp [hm]
    · have hkn : ¬(k = n) := fun h => hn h.symm
      by_cases hm : matchesB k line = true
      · by_cases hr : k ∈ rest <;> simp [hm, hr, hn, hkn, List.mem_cons]
      · simp [hm, hn]

/-- A filled entry stays filled for the rest of the scan. -/
theorem linesFold_isSome_mono (bn : List Str) (k : Str) :
    ∀ (ls : List Str) (m : List (Str × Str)), (mapGet? k m).isSome = true →
      (mapGet? k (ls.foldl (fun m line => bn.foldl (renameStep line) m) m)).isSome = true := by
  intro ls
  induction ls with
  | nil => intro m h; exact h
  | cons l rest ih =>
    intro m h
    rw [List.foldl_cons]
    apply ih
    rw [innerFold_get]
    by_cases hc : k ∈ bn ∧ matchesB k l = true
    · simp [hc]
    · simp [hc, h]

/-- A matching line guarantees a filled entry after the scan. -/
theorem linesFold_isSome_of_match (bn : List Str) (k line : Str) :
    ∀ (ls : List Str) (m : List (Str × Str)), line ∈ ls → k ∈ bn → matchesB k line = true →
      (mapGet? k (ls.foldl (fun m line => bn.foldl (renameStep line) m) m)).isSome = true := by
  intro ls
  induction ls with
  | nil => intro m hmem; cases hmem
  | cons l rest ih =>
    intro m hmem hbn hm
    rw [List.foldl_cons]
    rcases List.mem_cons.mp hmem with hl | hl
    · subst hl
      apply linesFold_isSome_mono
      rw [innerFold_get]
      simp [hbn, hm]
    · exact ih _ hl hbn hm

/-- When every remaining matching line is `line`, the alias recorded for
`line` is preserved by the rest of the scan. -/
theorem linesFold_keep (bn : List Str) (k line : Str) :
    ∀ (ls : List Str) (m : List (Str × Str)),
      (∀ l ∈ ls, matchesB k l = true → l = line) →
      mapGet? k m = some (recordedAlias line) →
      mapGet? k (ls.foldl (fun m line => bn.foldl (renameStep line) m) m)
        = some (recordedAlias line) := by
  intro ls
  induction ls with
  | nil => intro m _ h; exact h
  | cons l rest ih =>
    intro m huniq h
    rw [List.foldl_cons]
    apply ih _ (fun l' hl' => huniq l' (List.mem_cons_of_mem _ hl'))
    rw [innerFold_get]
    by_cases hc : k ∈ bn ∧ matchesB k l = true
    · have hleq : l = line := huniq l (List.mem_cons_self _ _) hc.2
      rw [hleq] at hc
      rw [hleq]
      simp [hc]
    · simp [hc, h]

/-- When `line` is the only matching line, the scan records exactly its
alias. -/
theorem linesFold_set (bn : List Str) (k line : Str) :
    ∀ (ls : List Str) (m : List (Str × Str)),
      line ∈ ls → k ∈ bn → matchesB k line = true →
      (∀ l ∈ ls, matchesB k l = true → l = line) →
      mapGet? k (ls.foldl (fun m line => bn.foldl (renameStep line) m) m)
        = some (recordedAlias line) := by
  intro ls
  induction ls with
  | nil => intro m hmem; cases hmem
  | cons l rest ih =>
    intro m hmem hbn hm huniq
    rw [List.foldl_cons]
    by_cases hl : matchesB k l = true
    · have hleq : l = line := huniq l (List.mem_cons_self _ _) hl
      apply linesFold_keep bn k line rest _ (fun l' hl' => huniq l' (List.mem_cons_of_mem _ hl'))
      rw [innerFold_get, hleq]
      simp [hbn, hleq ▸ hl]
    · have hline : line ∈ rest := by
        rcases List.mem_cons.mp hmem with h | h
        · exact absurd (h ▸ hm) hl
        · exact h
      exact ih _ hline hbn hm (fun l' hl' => huniq l' (List.mem_cons_of_mem _ hl'))

/-- A filled entry makes the key test of `function_uses_injection_str`
succeed. -/
theorem any_key_of_get_isSome (k : Str) :
    ∀ m : List (Str × Str), (mapGet? k m).isSome = true →
      m.any (fun p => decide (p.1 = k)) = true := by
  intro m
  induction m with
  | nil => intro h; simp [mapGet?] at h
  | cons p rest ih =>
    obtain ⟨a, b⟩ := p
    intro h
    by_cases ha : a = k
    · simp [ha]
    · rw [mapGet?] at h
      simp only [if_neg ha] at h
      simp [ha, ih h]

/-- `any not` is the negation of `all`. -/
theorem any_not_eq_not_all (l : List Bool) :
    (l.any fun flag => !flag) = !(l.all fun flag => flag = true) := by
  induction l with
  | nil => rfl
  | cons b t ih => cases b <;> simp [ih]

/-! ## Claim theorems -/

/-- C1: for every pair of override candidates for a baba-native name (the
non-injecting collision case routed to `merge_override_functions`), whatever
the external diff library returns, if the diff between the built-in original
and either the left or the right candidate contains a delete operation, the
merge fails with `CodeRemoval`. -/
theorem override_merge_delete_yields_CodeRemoval {P : Type} (bn : List Str) (dmp : Dmp P)
    (left right : LuaFunction) (baba_funcs : List LuaFunction) (original : LuaFunction)
    (dl dr : List Diff)
    (hnative : left.definition.is_baba_native = true)
    (hfind : baba_funcs.find? (fun func => decide (func.definition = left.definition))
      = some original)
    (hdl : dmp.diff_main original.code left.code = .ok dl)
    (hdr : dmp.diff_main original.code right.code = .ok dr)
    (hdel : ∃ d ∈ dl ++ dr, d.op = Ops.Delete) :
    merge_override_functions bn dmp left right baba_funcs
      = .error (.ModdingError .CodeRemoval) := by
  have hany : (dl ++ dr).any (fun d => decide (d.op = Ops.Delete)) = true := by
    rcases hdel with ⟨d, hmem, hop⟩
    exact List.any_eq_true.mpr ⟨d, hmem, by simp [hop]⟩
  unfold merge_override_functions
  simp [hfind, hdl, hdr, hany]

/-- C1 witness: a concrete override pair, built-in corpus and diff behaviour
on which the delete check fires. -/
theorem override_merge_delete_yields_CodeRemoval_witness :
    (∃ d ∈ ([⟨Ops.Delete, strL "x"⟩] ++ [⟨Ops.Delete, strL "x"⟩] : List Diff),
        d.op = Ops.Delete)
    ∧ merge_override_functions [strL "init"] fxDmpDel fxLeftFn fxRightFn [fxOrig]
        = .error (.ModdingError .CodeRemoval) :=
  ⟨by decide,
    override_merge_delete_yields_CodeRemoval [strL "init"] fxDmpDel fxLeftFn fxRightFn
      [fxOrig] fxOrig [⟨Ops.Delete, strL "x"⟩] [⟨Ops.Delete, strL "x"⟩]
      (by decide) (by decide) rfl rfl (by decide)⟩

/-- C4 (code bug): extracting from the scenario source yields exactly one
function named `init`, but its recorded code is the source with its line
breaks dropped, not the verbatim span the specification states. -/
theorem extract_scenario_code_not_verbatim :
    ((code_to_funcs [] (strL "function init(a)\nfoo()\nend")).map
        (fun f => (f.definition.name, f.code))
      = [(strL "init", strL "function init(a)foo()end")])
    ∧ strL "function init(a)foo()end" ≠ strL "function init(a)\nfoo()\nend" := by decide

/-- C5: the source's generic diff/patch merge coincides with the
specification's §4.4.3 pipeline (diff left→right, keep insert/equal, patch
the left code, `IncompletePatching` on any failed application, re-parse), for
every behaviour of the external diff library. -/
theorem merge_via_dmp_matches_spec {P : Type} (bn : List Str) (dmp : Dmp P)
    (left right : LuaFunction) :
    merge_functions_via_dmp bn dmp left right = mergeViaDmpSpec bn dmp left right := by
  have hfil : ∀ diffs : List Diff, diffs.filter (fun d => decide (d.op ≠ Ops.Delete))
      = diffs.filter (fun d => decide (d.op = Ops.Insert ∨ d.op = Ops.Equal)) := by
    intro diffs
    apply List.filter_congr
    intro d _
    obtain ⟨op, text⟩ := d
    cases op <;> rfl
  unfold merge_functions_via_dmp mergeViaDmpSpec
  simp only [hfil]
  split
  · rfl
  · split
    · rfl
    · split
      · rfl
      · rw [any_not_eq_not_all]
        cases hall : List.all _ (fun flag => flag = true) <;> simp

/-- C8 (code bug): extracting from `"function init\n(a)\nend"`, serialising
the extracted bodies, and extracting again changes the definition set: the
first pass names the function `"init\n"` (the reassembled fragment inserts a
line break after `function`), the second pass names it `"init"`. -/
theorem roundtrip_definition_set_changes :
    ((code_to_funcs [] (strL "function init\n(a)\nend")).map (fun f => f.definition)
        = [⟨strL "init\n", false⟩])
    ∧ ((code_to_funcs []
          (serializeBodies (code_to_funcs [] (strL "function init\n(a)\nend")))).map
          (fun f => f.definition)
        = [⟨strL "init", false⟩])
    ∧ strL "init\n" ≠ strL "init" := by decide

/-- C9: parsing a string into a `LuaFile` is total — the parse's error type
is uninhabited, so the unwrapping `From` conversions can never panic; the raw
code is kept whole and the functions are whatever the extractor (which drops
unparseable fragments) returns. -/
theorem luafile_parse_total (bn : List Str) (s : Str) :
    LuaFile.fromStrE bn s = Except.ok (LuaFile.fromString bn s)
    ∧ (LuaFile.fromString bn s).code = s
    ∧ (LuaFile.fromString bn s).functions = code_to_funcs bn s :=
  ⟨rfl, rfl, rfl⟩

/-- C3 counterexample: two mods whose manifests list the same sprite `spr`
but whose sprite folders hold differently named files and whose functions are
disjoint; `is_compatible_with` answers `true`, so it is not the predicate
"functions disjoint and manifest sprite lists disjoint". -/
theorem compat_check_ignores_manifest_sprites :
    ¬ (BabaMod.is_compatible_with [] fxM1 fxM2 = true ↔
        (List.Disjoint (fxM1.defined_function_definitions [])
            (fxM2.defined_function_definitions [])
          ∧ List.Disjoint fxM1.defined_sprites fxM2.defined_sprites)) := by
  intro h
  have h2 := (h.mp (by decide)).2
  exact h2 (show strL "spr" ∈ fxM1.defined_sprites by decide) (by decide)

/-- C3 (amended): `is_compatible_with` is true exactly when the
defined-function sets are disjoint and the sprite-folder file-name sets
(`sprites_by_name`, an unreadable folder counting as empty) are disjoint. -/
theorem compat_iff_functions_and_folder_sprites (bn : List Str) (a b : BabaMod) :
    BabaMod.is_compatible_with bn a b = true ↔
      (List.Disjoint (a.defined_function_definitions bn) (b.defined_function_definitions bn)
        ∧ List.Disjoint (a.sprites_by_name.getD []) (b.sprites_by_name.getD [])) := by
  unfold BabaMod.is_compatible_with isDisjointL
  simp [List.all_eq_true, List.Disjoint]

/-- C6 counterexample: two scripts with disjoint definition sets merge
successfully into the collapsed concatenation of their sources, but the left
input's extracted function body (whose line breaks were dropped by the
extractor) does not occur verbatim in the result. -/
theorem disjoint_merge_misses_extracted_body :
    (∀ d ∈ (LuaFile.fromString [] fxSrc6l).definitions,
      ∀ d' ∈ (LuaFile.fromString [] fxSrc6r).definitions, d.name ≠ d'.name)
    ∧ merge_files [] fxDmp (LuaFile.fromString [] fxSrc6l) (LuaFile.fromString [] fxSrc6r) []
        = .ok (LuaFile.fromString []
            (strL "function abc(a)\nfoo()\nend\nfunction xyz(b)\nbar()\nend"))
    ∧ strL "function abc(a)foo()end" ∈ (code_to_funcs [] fxSrc6l).map (fun f => f.code)
    ∧ containsL (strL "function abc(a)foo()end")
        (strL "function abc(a)\nfoo()\nend\nfunction xyz(b)\nbar()\nend") = false := by
  decide

/-- C6 (amended): when the two files' defined function-name sets are
disjoint, `merge_files` always succeeds, and its result is exactly the
untouched left code, the (empty) merged section and the untouched right code
concatenated with line breaks, with every run of blank lines collapsed. -/
theorem disjoint_merge_is_collapsed_concat {P : Type} (bn : List Str) (dmp : Dmp P)
    (lf rf : LuaFile) (baba_funcs : List LuaFunction)
    (hdisj : ∀ d ∈ lf.definitions, ∀ d' ∈ rf.definitions, d.name ≠ d'.name) :
    merge_files bn dmp lf rf baba_funcs
      = .ok (LuaFile.fromString bn (collapseNewlines
          (concat_strings lf.code (concat_strings [] rf.code)))) := by
  have hfilter : lf.definitions.filter (fun d => decide (d ∈ rf.definitions)) = [] := by
    rw [List.filter_eq_nil_iff]
    intro d hd
    simp only [decide_eq_true_eq]
    intro hmem
    exact hdisj d hd d hmem rfl
  unfold merge_files
  simp only [hfilter]
  rfl

/-- C6 witness for the amended statement: a concrete disjoint pair. -/
theorem disjoint_merge_is_collapsed_concat_witness :
    (∀ d ∈ (LuaFile.fromString [] fxSrc6l).definitions,
      ∀ d' ∈ (LuaFile.fromString [] fxSrc6r).definitions, d.name ≠ d'.name)
    ∧ merge_files [] fxDmp (LuaFile.fromString [] fxSrc6l) (LuaFile.fromString [] fxSrc6r) []
        = .ok (LuaFile.fromString [] (collapseNewlines
            (concat_strings (LuaFile.fromString [] fxSrc6l).code
              (concat_strings [] (LuaFile.fromString [] fxSrc6r).code)))) :=
  ⟨by decide,
    disjoint_merge_is_collapsed_concat [] fxDmp
      (LuaFile.fromString [] fxSrc6l) (LuaFile.fromString [] fxSrc6r) [] (by decide)⟩

/-- C7 counterexample: for the non-native colliding name `t`, the merged
result does contain `t_left` and `t_right`, but the unrenamed name still
occurs as a call target — the blind textual replacement turns `t(` into
`t_left(`, which itself ends in `t(` (and even mangles the keyword
`function` into `funct_leftion`). -/
theorem nonnative_rename_keeps_call_target :
    ((LuaFile.fromString [] fxSrc7l).definitions.filter
        (fun d => decide (d ∈ (LuaFile.fromString [] fxSrc7r).definitions))
      = [⟨strL "t", false⟩])
    ∧ (LuaFuncDef.mk (strL "t") false).is_baba_native = false
    ∧ merge_files [] fxDmp (LuaFile.fromString [] fxSrc7l) (LuaFile.fromString [] fxSrc7r) []
        = .ok (LuaFile.fromString [] fxMerged7)
    ∧ containsL (strL "t_left") fxMerged7 = true
    ∧ containsL (strL "t_right") fxMerged7 = true
    ∧ containsL (strL "t(") fxMerged7 = true := by
  decide

/-- C7 (amended): when the single collision is a non-native definition, the
merged result is assembled from the left code with every occurrence of the
name replaced by `<name>_left` and the right code with every occurrence
replaced by `<name>_right`, with no content merge; the renamed variants
therefore appear wherever the name occurred, but the unrenamed name can still
occur as a call target where the replacement reintroduces it. -/
theorem nonnative_collision_renames_both_sides {P : Type} (bn : List Str) (dmp : Dmp P)
    (lf rf : LuaFile) (baba_funcs : List LuaFunction) (d : LuaFuncDef)
    (hint : lf.definitions.filter (fun x => decide (x ∈ rf.definitions)) = [d])
    (hnat : d.is_baba_native = false) :
    merge_files bn dmp lf rf baba_funcs
      = .ok (LuaFile.fromString bn (collapseNewlines
          (concat_strings (replaceL d.name (d.name ++ LEFT_HAND_SUFFIX) lf.code)
            (concat_strings [] (replaceL d.name (d.name ++ RIGHT_HAND_SUFFIX) rf.code))))) := by
  unfold merge_files
  simp only [hint]
  unfold foldCollisions merge_collision_step
  rw [hnat]
  simp [foldCollisions]

/-- C7 witness for the amended statement: the concrete collision on `t`. -/
theorem nonnative_collision_renames_both_sides_witness :
    ((LuaFile.fromString [] fxSrc7l).definitions.filter
        (fun x => decide (x ∈ (LuaFile.fromString [] fxSrc7r).definitions))
      = [⟨strL "t", false⟩])
    ∧ merge_files [] fxDmp (LuaFile.fromString [] fxSrc7l) (LuaFile.fromString [] fxSrc7r) []
        = .ok (LuaFile.fromString [] (collapseNewlines
            (concat_strings
              (replaceL (strL "t") (strL "t" ++ LEFT_HAND_SUFFIX)
                (LuaFile.fromString [] fxSrc7l).code)
              (concat_strings []
                (replaceL (strL "t") (strL "t" ++ RIGHT_HAND_SUFFIX)
                  (LuaFile.fromString [] fxSrc7r).code))))) :=
  ⟨by decide,
    nonnative_collision_renames_both_sides [] fxDmp
      (LuaFile.fromString [] fxSrc7l) (LuaFile.fromString [] fxSrc7r) []
      ⟨strL "t", false⟩ (by decide) rfl⟩

/-- C2: for a colliding baba-native definition where exactly one of the two
files uses the injection method, the collision step of `merge_files` appends
to the merged section the non-injected side's function code first and
unmodified, then the single line `local <alias> = <name>`, then the injecting
side's code verbatim, in that order — and it fails with `RenameError` exactly
when the injecting side recorded no alias for the name. -/
theorem mixed_merge_order_and_rename_error {P : Type} (bn : List Str) (dmp : Dmp P)
    (left_file right_file : LuaFile) (baba_funcs : List LuaFunction)
    (st : MergeSt) (func : LuaFuncDef) (lfn rfn : LuaFunction) (il ir : Bool)
    (hnat : func.is_baba_native = true)
    (hl : from_definition_and_code bn func st.left = some lfn)
    (hr : from_definition_and_code bn func st.right = some rfn)
    (hil : left_file.function_uses_injection lfn.definition = il)
    (hir : right_file.function_uses_injection rfn.definition = ir)
    (hone : il ≠ ir) :
    (∀ aliasName,
      cond il (left_file.injection_data func) (right_file.injection_data func) = some aliasName →
      merge_collision_step bn dmp left_file right_file baba_funcs st func
        = .ok ⟨replaceL lfn.code [] st.left, replaceL rfn.code [] st.right,
            st.merged ++ cond il rfn.code lfn.code
              ++ '\n' :: (strL "local " ++ aliasName ++ strL " = " ++ func.name)
              ++ '\n' :: cond il lfn.code rfn.code⟩)
    ∧ (merge_collision_step bn dmp left_file right_file baba_funcs st func
          = .error (.ModdingError .RenameError)
        ↔ cond il (left_file.injection_data func) (right_file.injection_data func) = none) := by
  cases il
  · cases ir
    · exact absurd rfl hone
    · -- the right file injects
      cases hd : right_file.injection_data func with
      | none =>
        have hres : merge_collision_step bn dmp left_file right_file baba_funcs st func
            = .error (.ModdingError .RenameError) := by
          unfold merge_collision_step
          simp [hnat, hl, hr, hil, hir, hd]
        constructor
        · intro aliasName halias
          rw [Bool.cond_false] at halias
          cases halias
        · simp [hres, hd]
      | some rename =>
        have hres : merge_collision_step bn dmp left_file right_file baba_funcs st func
            = .ok ⟨replaceL lfn.code [] st.left, replaceL rfn.code [] st.right,
                st.merged ++ lfn.code
                  ++ '\n' :: (strL "local " ++ rename ++ strL " = " ++ func.name)
                  ++ '\n' :: rfn.code⟩ := by
          unfold merge_collision_step
          simp [hnat, hl, hr, hil, hir, hd]
        constructor
        · intro aliasName halias
          rw [Bool.cond_false] at halias
          injection halias with he
          subst he
          simpa using hres
        · simp [hres, hd]
  · cases ir
    · -- the left file injects
      cases hd : left_file.injection_data func with
      | none =>
        have hres : merge_collision_step bn dmp left_file right_file baba_funcs st func
            = .error (.ModdingError .RenameError) := by
          unfold merge_collision_step
          simp [hnat, hl, hr, hil, hir, hd]
        constructor
        · intro aliasName halias
          rw [Bool.cond_true] at halias
          cases halias
        · simp [hres, hd]
      | some rename =>
        have hres : merge_collision_step bn dmp left_file right_file baba_funcs st func
            = .ok ⟨replaceL lfn.code [] st.left, replaceL rfn.code [] st.right,
                st.merged ++ rfn.code
                  ++ '\n' :: (strL "local " ++ rename ++ strL " = " ++ func.name)
                  ++ '\n' :: lfn.code⟩ := by
          unfold merge_collision_step
          simp [hnat, hl, hr, hil, hir, hd]
        constructor
        · intro aliasName halias
          rw [Bool.cond_true] at halias
          injection halias with he
          subst he
          simpa using hres
        · simp [hres, hd]
    · exact absurd rfl hone

/-- C2 witness: the §8 mixed-merge scenario — the left script injects native
`update` via `local oldupdate = update`, the right script overrides it. -/
theorem mixed_merge_order_and_rename_error_witness :
    LuaFile.injection_data fxLf2 fxD2 = some (strL "oldupdate")
    ∧ merge_collision_step fxBn2 fxDmp fxLf2 fxRf2 [] ⟨fxLf2.code, fxRf2.code, []⟩ fxD2
        = .ok ⟨replaceL (strL "function update(a)foo()end") [] fxLf2.code,
               replaceL (strL "function update(a)bar()end") [] fxRf2.code,
               [] ++ strL "function update(a)bar()end"
                 ++ '\n' :: (strL "local " ++ strL "oldupdate" ++ strL " = " ++ strL "update")
                 ++ '\n' :: strL "function update(a)foo()end"⟩ := by
  have h := (mixed_merge_order_and_rename_error fxBn2 fxDmp fxLf2 fxRf2 []
      ⟨fxLf2.code, fxRf2.code, []⟩ fxD2
      ⟨⟨strL "update", true⟩, strL "function update(a)foo()end"⟩
      ⟨⟨strL "update", true⟩, strL "function update(a)bar()end"⟩
      true false rfl (by decide) (by decide) (by decide) (by decide) (by decide)).1
      (strL "oldupdate") (by decide)
  exact ⟨by decide, by simpa using h⟩

/-- C10: whenever a source line contains a built-in function name and lacks
the substring `function`, parsing records an entry of `renamed_functions`
keyed by that built-in name — so `function_uses_injection_str` answers `true`
for a built-in that is merely called on such a line — and when the (unique
such) line has no `=`, the recorded alias is the whole line with every
`local` and every space removed. -/
theorem builtin_call_line_records_injection (bn : List Str) (s name line : Str)
    (hline : line ∈ linesL s) (hname : name ∈ bn)
    (hc : containsL name line = true)
    (hf : containsL (strL "function") line = false) :
    (mapGet? name (LuaFile.fromString bn s).renamed_functions).isSome = true
    ∧ (LuaFile.fromString bn s).function_uses_injection_str name = true
    ∧ (containsL ['='] line = false →
        (∀ l ∈ linesL s, containsL name l = true →
          containsL (strL "function") l = false → l = line) →
        mapGet? name (LuaFile.fromString bn s).renamed_functions
          = some (replaceL [' '] [] (replaceL (strL "local") [] line))) := by
  have hm : matchesB name line = true := by
    unfold matchesB
    simp [hc, hf]
  have hmap : (LuaFile.fromString bn s).renamed_functions
      = (linesL s).foldl (fun m line => bn.foldl (renameStep line) m) [] := rfl
  have h1 : (mapGet? name (LuaFile.fromString bn s).renamed_functions).isSome = true := by
    rw [hmap]
    exact linesFold_isSome_of_match bn name line (linesL s) [] hline hname hm
  refine ⟨h1, ?_, ?_⟩
  · unfold LuaFile.function_uses_injection_str
    have hk := any_key_of_get_isSome name _ h1
    simp [hk]
  · intro heq huniq
    rw [hmap, ← recordedAlias_no_eq line heq]
    apply linesFold_set bn name line (linesL s) [] hline hname hm
    intro l hl hml
    unfold matchesB at hml
    simp only [Bool.and_eq_true, Bool.not_eq_true'] at hml
    exact huniq l hl hml.1 hml.2

/-- C10 witness: built-in `init` merely called on the line `init()` (no `=`,
no alias): the map still records `init ↦ init()` and the injection test
answers `true`. -/
theorem builtin_call_line_records_injection_witness :
    strL "init()" ∈ linesL (strL "init()")
    ∧ (LuaFile.fromString [strL "init"] (strL "init()")).function_uses_injection_str
        (strL "init") = true
    ∧ mapGet? (strL "init") (LuaFile.fromString [strL "init"] (strL "init()")).renamed_functions
        = some (replaceL [' '] [] (replaceL (strL "local") [] (strL "init()"))) := by
  have h := builtin_call_line_records_injection [strL "init"] (strL "init()")
    (strL "init") (strL "init()") (by decide) (by decide) (by decide) (by decide)
  exact ⟨by decide, h.2.1, h.2.2 (by decide) (by decide)⟩

end BabaMM
